import Mathlib

/-!
Shallow embedding of the core of the `Cpp_Project_Logging_System` repository:
the bounded ring buffer (`loggingLib/inc/RingBuffer.hpp`), the thread pool
(`loggingLib/src/concurrency/ThreadPool.hpp`), the dispatch manager
(`loggingLib/src/LogManager.cpp` with `loggingLib/include/LogManager.hpp`),
the message formatter (`loggingLib/src/LogMessage.cpp`) and the file sink
(`loggingLib/src/FileSinkImpl.cpp`).

Mutexes and condition variables only serialize the operations; the embedding
models the single-threaded (serialized) semantics of each operation as a pure
state transformer.
-/

/-- `LogMessage` (from `loggingLib/inc/LogMessage.hpp`): five string fields. -/
structure LogMessage where
  name : String
  timeStamp : String
  context : String
  severity : String
  payload : String
deriving DecidableEq, Repr

/-- State of `RingBuffer<T>` (from `loggingLib/inc/RingBuffer.hpp`):
`std::vector<std::optional<T>> buffer`, indices `head`/`tail`, `elemCount`
and the fixed `maxCapacity`. The mutex and condition variables are the
serialization discipline, not data. -/
structure RingBuffer (T : Type) where
  buffer : List (Option T)
  head : Nat
  tail : Nat
  elemCount : Nat
  maxCapacity : Nat
deriving DecidableEq, Repr

namespace RingBuffer

/-- The constructor `RingBuffer(std::size_t capacity) : buffer(capacity),
maxCapacity(capacity) {}`: it performs no validation of `capacity`; the
vector is value-initialized to `capacity` empty optionals. -/
def new (T : Type) (capacity : Nat) : RingBuffer T :=
  { buffer := List.replicate capacity none
    head := 0
    tail := 0
    elemCount := 0
    maxCapacity := capacity }

/-- `isEmpty_unlocked`: `elemCount == 0`. -/
def isEmpty_unlocked (b : RingBuffer T) : Bool :=
  b.elemCount == 0

/-- `isFull_unlocked`: `elemCount == maxCapacity`. -/
def isFull_unlocked (b : RingBuffer T) : Bool :=
  b.elemCount == b.maxCapacity

/-- `tryPush`: under the lock, if full return `false` leaving the state
unchanged; otherwise store at `head`, advance `head` modulo capacity,
increment `elemCount`, return `true`. -/
def tryPush (v : T) (b : RingBuffer T) : Bool × RingBuffer T :=
  if b.isFull_unlocked then
    (false, b)
  else
    (true,
      { b with
        buffer := b.buffer.set b.head (some v)
        head := (b.head + 1) % b.maxCapacity
        elemCount := b.elemCount + 1 })

/-- `tryPop`: under the lock, if empty return `std::nullopt` leaving the
state unchanged; otherwise take the value at `tail` (the C++ reads
`buffer[tail].value()`, which presumes the slot is occupied — guaranteed by
the representation invariant), clear the slot, advance `tail` modulo
capacity, decrement `elemCount`. -/
def tryPop (b : RingBuffer T) : Option T × RingBuffer T :=
  if b.isEmpty_unlocked then
    (none, b)
  else
    (b.buffer.getD b.tail none,
      { b with
        buffer := b.buffer.set b.tail none
        tail := (b.tail + 1) % b.maxCapacity
        elemCount := b.elemCount - 1 })

/-- The state update performed by the blocking `push` after
`notFull.wait(lock, ...)` has established `!isFull_unlocked()`. -/
def push (v : T) (b : RingBuffer T) : RingBuffer T :=
  { b with
    buffer := b.buffer.set b.head (some v)
    head := (b.head + 1) % b.maxCapacity
    elemCount := b.elemCount + 1 }

/-- The blocking `pop` after `notEmpty.wait(lock, ...)` has established
`!isEmpty_unlocked()`: returns the value at `tail` and the updated state. -/
def pop (b : RingBuffer T) : Option T × RingBuffer T :=
  (b.buffer.getD b.tail none,
    { b with
      buffer := b.buffer.set b.tail none
      tail := (b.tail + 1) % b.maxCapacity
      elemCount := b.elemCount - 1 })

/-- Structural invariant of the ring buffer (spec §3): the backing vector
has length `maxCapacity`, `0 ≤ elemCount ≤ maxCapacity`, and `head`/`tail`
are already reduced modulo `maxCapacity` (for `maxCapacity = 0` the
condition `x % 0 = x` is vacuous, matching the degenerate queue). -/
def Inv (b : RingBuffer T) : Prop :=
  b.buffer.length = b.maxCapacity ∧
  b.elemCount ≤ b.maxCapacity ∧
  b.head % b.maxCapacity = b.head ∧
  b.tail % b.maxCapacity = b.tail

instance (b : RingBuffer T) : Decidable b.Inv := by
  unfold Inv
  infer_instance

/-- Abstraction relation: the buffer `b` represents the FIFO queue `l`
(oldest element first, stored starting at `tail`). -/
def Models (b : RingBuffer T) (l : List T) : Prop :=
  b.buffer.length = b.maxCapacity ∧
  b.tail % b.maxCapacity = b.tail ∧
  b.elemCount = l.length ∧
  l.length ≤ b.maxCapacity ∧
  b.head = (b.tail + l.length) % b.maxCapacity ∧
  ∀ i, i < l.length → b.buffer.getD ((b.tail + i) % b.maxCapacity) none = l[i]?

instance (b : RingBuffer LogMessage) (l : List LogMessage) : Decidable (b.Models l) := by
  unfold Models
  infer_instance

/-- The queue contents read off a buffer state: `elemCount` slots starting
at `tail`, in FIFO order. -/
def contents (b : RingBuffer T) : List T :=
  (List.range b.elemCount).filterMap
    (fun i => b.buffer.getD ((b.tail + i) % b.maxCapacity) none)

/-- A single-thread sequence of `tryPush` calls; the Boolean records whether
every call succeeded (the test scenario of spec §8). -/
def pushAll : List T → RingBuffer T → Bool × RingBuffer T
  | [], b => (true, b)
  | e :: rest, b =>
    let r := b.tryPush e
    if r.1 then pushAll rest r.2 else (false, r.2)

/-- `n` successive `tryPop` calls, collecting the returned events in order;
stops early if the queue empties. -/
def popAll : Nat → RingBuffer T → List T × RingBuffer T
  | 0, b => ([], b)
  | n + 1, b =>
    let r := b.tryPop
    match r.1 with
    | some v =>
      let r2 := popAll n r.2
      (v :: r2.1, r2.2)
    | none => ([], r.2)

end RingBuffer

/-- A registered sink, identified by name; `LogManager` stores
`std::shared_ptr<ILogSink>` handles in registration order. -/
abbrev Sink := String

/-- The closure `[sinkCopy, msgCopy]() { sinkCopy->write(msgCopy); }` that
`LogManager::route` submits: it captures one sink handle and one copy of the
event. -/
abbrev WriteTask := Sink × LogMessage

/-- State of `ThreadPool` visible to `enqueue` (from
`loggingLib/src/concurrency/ThreadPool.hpp`): the FIFO task queue and the
monotone `shutdown` flag. Worker threads are modelled separately by
`workerStep`. -/
structure ThreadPoolState where
  tasks : List WriteTask
  shutdown : Bool
deriving DecidableEq, Repr

namespace ThreadPool

/-- `ThreadPool::enqueue`: under the lock, if `shutdown` return `false`
(dropping the task); otherwise append the task to the queue and return
`true`. The function has no failure path besides the Boolean result. -/
def enqueue (task : WriteTask) (p : ThreadPoolState) : Bool × ThreadPoolState :=
  if p.shutdown then
    (false, p)
  else
    (true, { p with tasks := p.tasks ++ [task] })

end ThreadPool

/-- State of `LogManager` (from `loggingLib/include/LogManager.hpp`): the
sink registry, the owned ring buffer, and the owned thread pool's queue
state. -/
structure LogManagerState where
  sinks : List Sink
  buffer : RingBuffer LogMessage
  pool : ThreadPoolState
deriving DecidableEq, Repr

namespace LogManager

/-- `LogManager`'s constructor: `buffer(bufferCapacity)` and a fresh thread
pool; it performs no validation of `bufferCapacity`. The sink registry
starts empty and is filled by `addSink`; `init` takes the already-registered
sinks as a parameter. -/
def init (bufferCapacity : Nat) (sinks : List Sink) : LogManagerState :=
  { sinks := sinks
    buffer := RingBuffer.new LogMessage bufferCapacity
    pool := { tasks := [], shutdown := false } }

/-- `LogManager::addSink`: appends to the registry. -/
def addSink (sink : Sink) (m : LogManagerState) : LogManagerState :=
  { m with sinks := m.sinks ++ [sink] }

/-- `LogManager::route`: for each registered sink in registration order,
enqueue one task capturing a copy of the sink handle and of the message. -/
def route (msg : LogMessage) (m : LogManagerState) : LogManagerState :=
  { m with
    pool := m.sinks.foldl (fun p sink => (ThreadPool.enqueue (sink, msg) p).2) m.pool }

/-- The body of `LogManager::flush`'s `while (auto msg = buffer.tryPop())`
loop, with explicit fuel. Each successful `tryPop` decrements `elemCount`
by one and `tryPop` fails exactly when `elemCount = 0`, so
`buffer.elemCount` iterations reproduce the loop exactly. -/
def flushLoop : Nat → LogManagerState → LogManagerState
  | 0, m => m
  | fuel + 1, m =>
    let r := m.buffer.tryPop
    match r.1 with
    | some msg => flushLoop fuel (route msg { m with buffer := r.2 })
    | none => m

/-- `LogManager::flush`. -/
def flush (m : LogManagerState) : LogManagerState :=
  flushLoop m.buffer.elemCount m

/-- `LogManager::log`: try a non-blocking push; if the queue is full, flush
and retry once; a second failure silently drops the event (on failure
`tryPush` returns the state unchanged, so the retry's state component can be
used unconditionally). `log` returns `void` in C++: no error is ever
reported to the caller, which the embedding reflects by being a total
function into plain states. -/
def log (msg : LogMessage) (m : LogManagerState) : LogManagerState :=
  let r := m.buffer.tryPush msg
  if r.1 then
    { m with buffer := r.2 }
  else
    let m1 := flush m
    { m1 with buffer := (m1.buffer.tryPush msg).2 }

/-- Logging a sequence of events from a single thread. -/
def logN : List LogMessage → LogManagerState → LogManagerState
  | [], m => m
  | msg :: rest, m => logN rest (log msg m)

/-- Number of internal `flush` calls performed while logging a sequence from
a single thread: `log` flushes exactly when its first `tryPush` fails. -/
def flushesDuring : List LogMessage → LogManagerState → Nat
  | [], _ => 0
  | msg :: rest, m =>
    (if (m.buffer.tryPush msg).1 then 0 else 1) + flushesDuring rest (log msg m)

/-- The fan-out of a drained event sequence over a sink registry: for each
event in drain order, one task per sink in registration order. -/
def fanOut (sinks : List Sink) : List LogMessage → List WriteTask
  | [] => []
  | e :: rest => sinks.map (fun s => (s, e)) ++ fanOut sinks rest

end LogManager

/-- The observable outcome of invoking one queued task body
(`std::function<void()>`): either it returns normally, or it raises a
failure (a C++ exception), described by a message. -/
abbrev TaskOutcome := Except String Unit

deriving instance DecidableEq for Except

/-- The worker-visible pool state: the queue of pending task bodies (each
represented by the outcome its invocation produces) and the shutdown flag. -/
structure WorkerQueueState where
  tasks : List TaskOutcome
  shutdown : Bool
deriving DecidableEq, Repr

/-- Result of one iteration of `ThreadPool::workerLoop` after the
`cv.wait` predicate `!tasks.empty() || shutdown` holds: the worker exits,
keeps waiting, or removes the front task and executes it, the iteration
ending with the task body's own outcome. -/
inductive WorkerStepResult where
  | exited : WorkerStepResult
  | blocked : WorkerStepResult
  | ran : TaskOutcome → WorkerQueueState → WorkerStepResult
deriving DecidableEq, Repr

/-- One iteration of `ThreadPool::workerLoop`: if signalled to shut down
with an empty queue, return; otherwise remove the front task and run it.
The C++ body executes `task();` with no `try`/`catch`, so the outcome of
the iteration is exactly the outcome of the task body: a failure raised by
the body propagates out of `workerLoop`. -/
def workerStep (p : WorkerQueueState) : WorkerStepResult :=
  match p.tasks with
  | [] => if p.shutdown then WorkerStepResult.exited else WorkerStepResult.blocked
  | t :: rest => WorkerStepResult.ran t { p with tasks := rest }

/-- `operator<<(std::ostream&, const LogMessage&)` (from
`loggingLib/src/LogMessage.cpp`): the stream inserts, in order, `"["`,
`name`, `"] "`, `"["`, `timeStamp`, `"] "`, `"["`, `context`, `"] "`,
`"["`, `severity`, `"] "`, `payload`. -/
def LogMessage.format (msg : LogMessage) : String :=
  "[" ++ msg.name ++ "] " ++ "[" ++ msg.timeStamp ++ "] " ++ "[" ++ msg.context
    ++ "] " ++ "[" ++ msg.severity ++ "] " ++ msg.payload

/-- Modelled from the spec (§6), for comparison only: the spec asserts the
persisted line format is `[source] [severity] [timestamp] payload` — three
bracketed fields in the order source, severity, timestamp. -/
def specLineFormat (source severity timestamp payload : String) : String :=
  "[" ++ source ++ "] " ++ "[" ++ severity ++ "] " ++ "[" ++ timestamp ++ "] " ++ payload

/-- Observable state of `FileSinkImpl`: whether the backing `std::ofstream`
is open, and the sequence of lines appended so far (the file is opened in
append mode; `std::endl` terminates each line). -/
structure FileSinkState where
  fileIsOpen : Bool
  lines : List String
deriving DecidableEq, Repr

/-- `FileSinkImpl::write`: if the file is open, append `msg` formatted by
`operator<<` followed by a newline (one line); otherwise do nothing. -/
def FileSinkImpl.write (msg : LogMessage) (fs : FileSinkState) : FileSinkState :=
  if fs.fileIsOpen then
    { fs with lines := fs.lines ++ [msg.format] }
  else
    fs

/-- Sample event used by concrete witnesses. -/
def msgA : LogMessage :=
  { name := "engine"
    timeStamp := "2024-01-01 10:00:00"
    context := "ENGINE_TEMP"
    severity := "INFO"
    payload := "temp normal" }

/-- Second sample event used by concrete witnesses. -/
def msgB : LogMessage :=
  { name := "fuel"
    timeStamp := "2024-01-01 10:00:01"
    context := "FUEL_LEVEL"
    severity := "WARNING"
    payload := "level low" }

/-- A capacity-2 buffer holding one event, used as a concrete invariant
witness. -/
def sampleBuffer : RingBuffer LogMessage :=
  ((RingBuffer.new LogMessage 2).tryPush msgA).2

/-- A concrete manager state: two sinks, a capacity-3 buffer holding two
events, idle pool. -/
def sampleManager : LogManagerState :=
  { sinks := ["console", "file"]
    buffer := (RingBuffer.pushAll [msgA, msgB] (RingBuffer.new LogMessage 3)).2
    pool := { tasks := [], shutdown := false } }

/-- A concrete full buffer: capacity 1 holding one event. -/
def sampleFullBuffer : RingBuffer LogMessage :=
  (RingBuffer.pushAll [msgA] (RingBuffer.new LogMessage 1)).2

namespace RingBuffer

theorem new_models (T : Type) (capacity : Nat) : (new T capacity).Models [] := by
  refine ⟨by simp [new], by simp [new], by simp [new], by simp [new], by simp [new], ?_⟩
  intro i hi
  simp at hi

theorem add_mod_ne_of_lt {c t i j : Nat} (hij : i < j) (hj : j < c) :
    (t + i) % c ≠ (t + j) % c := by
  intro h
  have hmod : Nat.ModEq c i j := Nat.ModEq.add_left_cancel' t h
  have hij' : i % c = j % c := hmod
  rw [Nat.mod_eq_of_lt (lt_trans hij hj), Nat.mod_eq_of_lt hj] at hij'
  omega

theorem getD_set_same {T : Type} (l : List (Option T)) (i : Nat) (a : Option T)
    (h : i < l.length) : (l.set i a).getD i none = a := by
  simp [List.getD_eq_getElem?_getD, List.getElem?_set_eq_of_lt _ h]

theorem getD_set_other {T : Type} (l : List (Option T)) {i j : Nat} (a : Option T)
    (h : i ≠ j) : (l.set i a).getD j none = l.getD j none := by
  simp [List.getD_eq_getElem?_getD, List.getElem?_set_ne h]

theorem tryPush_models {T : Type} {b : RingBuffer T} {l : List T} (v : T)
    (h : b.Models l) (hlt : l.length < b.maxCapacity) :
    (b.tryPush v).1 = true ∧ (b.tryPush v).2.Models (l ++ [v]) := by
  obtain ⟨hlen, htail, hcount, _, hhead, hslots⟩ := h
  have hcap : 0 < b.maxCapacity := Nat.lt_of_le_of_lt (Nat.zero_le _) hlt
  have hnotfull : b.isFull_unlocked = false := by
    simp only [isFull_unlocked, hcount, beq_eq_false_iff_ne]
    omega
  refine ⟨by simp [tryPush, hnotfull], ?_⟩
  simp only [tryPush, hnotfull, Bool.false_eq_true, if_false]
  refine ⟨by simpa using hlen, htail, by simp [hcount], by simpa using hlt, ?_, ?_⟩
  · simp only [List.length_append, List.length_singleton, hhead]
    rw [Nat.mod_add_mod, Nat.add_assoc]
  · intro i hi
    simp only [List.length_append, List.length_singleton] at hi
    rcases Nat.lt_succ_iff_lt_or_eq.mp hi with hi' | hi'
    · have hne : b.head ≠ (b.tail + i) % b.maxCapacity := by
        rw [hhead]
        exact (add_mod_ne_of_lt hi' hlt).symm
      rw [getD_set_other _ _ hne, hslots i hi',
        List.getElem?_append_left hi']
    · subst hi'
      have hidx : (b.tail + l.length) % b.maxCapacity = b.head := hhead.symm
      rw [hidx, getD_set_same _ _ _ (by rw [hlen, ← hidx]; exact Nat.mod_lt _ hcap)]
      simp

theorem tryPop_models {T : Type} {b : RingBuffer T} {v : T} {l : List T}
    (h : b.Models (v :: l)) :
    (b.tryPop).1 = some v ∧ (b.tryPop).2.Models l := by
  obtain ⟨hlen, htail, hcount, hle, hhead, hslots⟩ := h
  simp only [List.length_cons] at hcount hle hhead
  have hcap : 0 < b.maxCapacity := Nat.lt_of_lt_of_le (Nat.succ_pos _) hle
  have htl : b.tail < b.maxCapacity := htail ▸ Nat.mod_lt _ hcap
  have hnotempty : b.isEmpty_unlocked = false := by
    simp only [isEmpty_unlocked, hcount, beq_eq_false_iff_ne]
    omega
  have hslot0 : b.buffer.getD b.tail none = some v := by
    have := hslots 0 (Nat.succ_pos _)
    rw [Nat.add_zero, htail] at this
    simpa using this
  constructor
  · simp only [tryPop, hnotempty, Bool.false_eq_true, if_false]
    exact hslot0
  · simp only [tryPop, hnotempty, Bool.false_eq_true, if_false]
    refine ⟨by simpa using hlen, Nat.mod_mod_of_dvd _ dvd_rfl,
      by simp [hcount], show l.length ≤ b.maxCapacity by omega, ?_, ?_⟩
    · rw [hhead, Nat.mod_add_mod]
      congr 1
      omega
    · intro i hi
      have h1i : 1 + i < b.maxCapacity := by omega
      have hne : b.tail ≠ ((b.tail + 1) % b.maxCapacity + i) % b.maxCapacity := by
        rw [Nat.mod_add_mod]
        conv_lhs => rw [← htail, ← Nat.add_zero b.tail]
        rw [Nat.add_assoc]
        exact add_mod_ne_of_lt (by omega) h1i
      rw [getD_set_other _ _ hne, Nat.mod_add_mod, Nat.add_assoc]
      have := hslots (1 + i) (by simp only [List.length_cons]; omega)
      rw [this]
      have h1i' : 1 + i = i + 1 := Nat.add_comm 1 i
      rw [h1i']
      exact List.getElem?_cons_succ

theorem tryPush_maxCapacity {T : Type} (v : T) (b : RingBuffer T) :
    (b.tryPush v).2.maxCapacity = b.maxCapacity := by
  simp only [tryPush]
  split <;> rfl

theorem pushAll_models {T : Type} (es : List T) :
    ∀ {b : RingBuffer T} {l : List T}, b.Models l →
      l.length + es.length ≤ b.maxCapacity →
      (pushAll es b).1 = true ∧ (pushAll es b).2.Models (l ++ es) := by
  induction es with
  | nil =>
    intro b l h _
    simpa [pushAll] using h
  | cons e rest ih =>
    intro b l h hle
    have hlt : l.length < b.maxCapacity := by
      simp only [List.length_cons] at hle
      omega
    obtain ⟨h1, h2⟩ := tryPush_models e h hlt
    have harith : (l ++ [e]).length + rest.length ≤ (b.tryPush e).2.maxCapacity := by
      rw [tryPush_maxCapacity]
      simp only [List.length_append, List.length_singleton, List.length_cons,
        List.length_nil] at hle ⊢
      omega
    obtain ⟨h3, h4⟩ := ih h2 harith
    refine ⟨?_, ?_⟩
    · simp only [pushAll, h1, if_true]
      exact h3
    · simp only [pushAll, h1, if_true]
      simpa using h4

theorem popAll_models {T : Type} (l : List T) :
    ∀ {b : RingBuffer T}, b.Models l →
      (popAll l.length b).1 = l ∧ (popAll l.length b).2.Models [] := by
  induction l with
  | nil =>
    intro b h
    exact ⟨rfl, by simpa [popAll] using h⟩
  | cons v t ih =>
    intro b h
    obtain ⟨h1, h2⟩ := tryPop_models h
    obtain ⟨h3, h4⟩ := ih h2
    refine ⟨?_, ?_⟩
    · simp only [List.length_cons, popAll, h1]
      rw [h3]
    · simp only [List.length_cons, popAll, h1]
      exact h4

theorem range_filterMap_getElem {α : Type} :
    ∀ (l : List α) (f : Nat → Option α), (∀ i, i < l.length → f i = l[i]?) →
      (List.range l.length).filterMap f = l := by
  intro l
  induction l with
  | nil => simp
  | cons x t ih =>
    intro f h
    have h0 : f 0 = some x := by simpa using h 0 (by simp)
    rw [List.length_cons, List.range_succ_eq_map, List.filterMap_cons]
    simp only [h0]
    rw [List.filterMap_map]
    have ht : ∀ i, i < t.length → (f ∘ Nat.succ) i = t[i]? := by
      intro i hi
      have := h (i + 1) (by simp only [List.length_cons]; omega)
      simpa using this
    rw [ih (f ∘ Nat.succ) ht]

theorem contents_eq_of_models {T : Type} {b : RingBuffer T} {l : List T}
    (h : b.Models l) : b.contents = l := by
  obtain ⟨_, _, hcount, _, _, hslots⟩ := h
  unfold contents
  rw [hcount]
  exact range_filterMap_getElem l _ hslots

end RingBuffer

namespace LogManager

theorem foldl_enqueue_spec (msg : LogMessage) :
    ∀ (sinks : List Sink) (p : ThreadPoolState), p.shutdown = false →
      sinks.foldl (fun p sink => (ThreadPool.enqueue (sink, msg) p).2) p =
        { tasks := p.tasks ++ sinks.map (fun s => (s, msg)), shutdown := false } := by
  intro sinks
  induction sinks with
  | nil =>
    intro p hp
    cases p with
    | mk tasks sd =>
      simp only [List.foldl_nil, List.map_nil, List.append_nil]
      simp at hp
      rw [hp]
  | cons s rest ih =>
    intro p hp
    simp only [List.foldl_cons]
    have he : ThreadPool.enqueue (s, msg) p = (true, { p with tasks := p.tasks ++ [(s, msg)] }) := by
      simp [ThreadPool.enqueue, hp]
    rw [he]
    rw [ih _ (by simpa using hp)]
    simp

theorem route_spec (msg : LogMessage) (m : LogManagerState)
    (hs : m.pool.shutdown = false) :
    route msg m =
      { sinks := m.sinks
        buffer := m.buffer
        pool := { tasks := m.pool.tasks ++ m.sinks.map (fun s => (s, msg))
                  shutdown := false } } := by
  unfold route
  rw [foldl_enqueue_spec msg m.sinks m.pool hs]

theorem flushLoop_spec :
    ∀ (l : List LogMessage) (m : LogManagerState),
      m.buffer.Models l → m.pool.shutdown = false →
      (flushLoop l.length m).sinks = m.sinks ∧
      (flushLoop l.length m).buffer.Models [] ∧
      (flushLoop l.length m).pool.shutdown = false ∧
      (flushLoop l.length m).pool.tasks = m.pool.tasks ++ fanOut m.sinks l := by
  intro l
  induction l with
  | nil =>
    intro m h hs
    exact ⟨rfl, h, hs, by simp [fanOut, flushLoop]⟩
  | cons v t ih =>
    intro m h hs
    obtain ⟨h1, h2⟩ := RingBuffer.tryPop_models h
    have hroute := route_spec v { m with buffer := (m.buffer.tryPop).2 } hs
    have hm1 : (route v { m with buffer := (m.buffer.tryPop).2 }).buffer.Models t := by
      rw [hroute]
      exact h2
    have hm1s : (route v { m with buffer := (m.buffer.tryPop).2 }).pool.shutdown = false := by
      rw [hroute]
    obtain ⟨ih1, ih2, ih3, ih4⟩ := ih _ hm1 hm1s
    have hstep : flushLoop (v :: t).length m =
        flushLoop t.length (route v { m with buffer := (m.buffer.tryPop).2 }) := by
      simp only [List.length_cons, flushLoop, h1]
    rw [hstep]
    refine ⟨by rw [ih1, hroute], ih2, ih3, ?_⟩
    rw [ih4, hroute]
    simp only [fanOut, List.append_assoc]

theorem flush_spec {m : LogManagerState} {l : List LogMessage}
    (h : m.buffer.Models l) (hs : m.pool.shutdown = false) :
    (flush m).sinks = m.sinks ∧
    (flush m).buffer.Models [] ∧
    (flush m).pool.shutdown = false ∧
    (flush m).pool.tasks = m.pool.tasks ++ fanOut m.sinks l := by
  have hcount : m.buffer.elemCount = l.length := h.2.2.1
  unfold flush
  rw [hcount]
  exact flushLoop_spec l m h hs

theorem tryPush_full {T : Type} {b : RingBuffer T} {l : List T} (v : T)
    (h : b.Models l) (hfull : l.length = b.maxCapacity) :
    b.tryPush v = (false, b) := by
  have hf : b.isFull_unlocked = true := by
    simp [RingBuffer.isFull_unlocked, h.2.2.1, hfull]
  simp [RingBuffer.tryPush, hf]

theorem tryPop_maxCapacity {T : Type} (b : RingBuffer T) :
    (b.tryPop).2.maxCapacity = b.maxCapacity := by
  simp only [RingBuffer.tryPop]
  split <;> rfl

theorem flushLoop_maxCapacity :
    ∀ (fuel : Nat) (m : LogManagerState),
      (flushLoop fuel m).buffer.maxCapacity = m.buffer.maxCapacity := by
  intro fuel
  induction fuel with
  | zero => intro m; rfl
  | succ n ih =>
    intro m
    cases hpop : (m.buffer.tryPop).1 with
    | none => simp only [flushLoop, hpop]
    | some v =>
      simp only [flushLoop, hpop]
      rw [ih]
      exact tryPop_maxCapacity m.buffer

theorem flush_maxCapacity (m : LogManagerState) :
    (flush m).buffer.maxCapacity = m.buffer.maxCapacity :=
  flushLoop_maxCapacity m.buffer.elemCount m

theorem log_fast {m : LogManagerState} {l : List LogMessage} (msg : LogMessage)
    (h : m.buffer.Models l) (hlt : l.length < m.buffer.maxCapacity) :
    log msg m = { m with buffer := (m.buffer.tryPush msg).2 } := by
  have h1 : (m.buffer.tryPush msg).1 = true := (RingBuffer.tryPush_models msg h hlt).1
  simp only [log, h1, if_true]

theorem log_maxCapacity (msg : LogMessage) (m : LogManagerState) :
    (log msg m).buffer.maxCapacity = m.buffer.maxCapacity := by
  simp only [log]
  by_cases hp : (m.buffer.tryPush msg).1 = true
  · simp only [hp, if_true]
    exact RingBuffer.tryPush_maxCapacity msg m.buffer
  · have hp' : (m.buffer.tryPush msg).1 = false := by
      revert hp
      cases (m.buffer.tryPush msg).1 <;> simp
    simp only [hp', Bool.false_eq_true, if_false]
    rw [RingBuffer.tryPush_maxCapacity]
    exact flush_maxCapacity m

theorem logN_maxCapacity :
    ∀ (es : List LogMessage) (m : LogManagerState),
      (logN es m).buffer.maxCapacity = m.buffer.maxCapacity := by
  intro es
  induction es with
  | nil => intro m; rfl
  | cons e rest ih =>
    intro m
    simp only [logN]
    rw [ih, log_maxCapacity]

theorem logN_no_flush (es : List LogMessage) :
    ∀ {m : LogManagerState} {l : List LogMessage}, m.buffer.Models l →
      l.length + es.length ≤ m.buffer.maxCapacity →
      (logN es m).sinks = m.sinks ∧ (logN es m).pool = m.pool ∧
      (logN es m).buffer.Models (l ++ es) ∧
      flushesDuring es m = 0 := by
  induction es with
  | nil =>
    intro m l h _
    exact ⟨rfl, rfl, by simpa using h, rfl⟩
  | cons e rest ih =>
    intro m l h hle
    have hlt : l.length < m.buffer.maxCapacity := by
      simp only [List.length_cons] at hle
      omega
    obtain ⟨h1, h2⟩ := RingBuffer.tryPush_models e h hlt
    have hfast := log_fast e h hlt
    have hb : (log e m).buffer.Models (l ++ [e]) := by rw [hfast]; exact h2
    have harith : (l ++ [e]).length + rest.length ≤ (log e m).buffer.maxCapacity := by
      rw [log_maxCapacity]
      simp only [List.length_append, List.length_singleton, List.length_cons,
        List.length_nil] at hle ⊢
      omega
    obtain ⟨ih1, ih2, ih3, ih4⟩ := ih hb harith
    refine ⟨?_, ?_, ?_, ?_⟩
    · simp only [logN]
      rw [ih1, hfast]
    · simp only [logN]
      rw [ih2, hfast]
    · simp only [logN]
      simpa using ih3
    · simp only [flushesDuring, h1, if_true, ih4]

theorem log_overflow {m : LogManagerState} {l : List LogMessage} (msg : LogMessage)
    (h : m.buffer.Models l) (hfull : l.length = m.buffer.maxCapacity)
    (hpos : 0 < m.buffer.maxCapacity) (hs : m.pool.shutdown = false) :
    (log msg m).sinks = m.sinks ∧
    (log msg m).buffer.Models [msg] ∧
    (log msg m).pool.shutdown = false ∧
    (log msg m).pool.tasks = m.pool.tasks ++ fanOut m.sinks l := by
  have hfail : m.buffer.tryPush msg = (false, m.buffer) := tryPush_full msg h hfull
  obtain ⟨f1, f2, f3, f4⟩ := flush_spec h hs
  have hretry := RingBuffer.tryPush_models (b := (flush m).buffer) (l := []) msg f2
    (by rw [flush_maxCapacity]; simpa using hpos)
  have hlog : log msg m = { flush m with buffer := ((flush m).buffer.tryPush msg).2 } := by
    simp only [log, hfail, Bool.false_eq_true, if_false]
  rw [hlog]
  exact ⟨f1, by simpa using hretry.2, f3, f4⟩

theorem logN_append (a b : List LogMessage) :
    ∀ m, logN (a ++ b) m = logN b (logN a m) := by
  induction a with
  | nil => intro m; rfl
  | cons x t ih =>
    intro m
    simp only [List.cons_append, logN]
    exact ih (log x m)

theorem flushesDuring_append (a b : List LogMessage) :
    ∀ m, flushesDuring (a ++ b) m = flushesDuring a m + flushesDuring b (logN a m) := by
  induction a with
  | nil => intro m; simp [flushesDuring, logN]
  | cons x t ih =>
    intro m
    simp only [List.cons_append, flushesDuring, logN, List.append_eq]
    rw [ih (log x m)]
    omega

end LogManager

theorem tryPush_fail_eq {T : Type} {b : RingBuffer T} {v : T}
    (h : (b.tryPush v).1 = false) : b.tryPush v = (false, b) := by
  by_cases hf : b.isFull_unlocked = true
  · simp [RingBuffer.tryPush, hf]
  · simp [RingBuffer.tryPush, hf] at h

theorem log_drop (m : LogManagerState) (msg : LogMessage)
    (h1 : (m.buffer.tryPush msg).1 = false)
    (h2 : ((LogManager.flush m).buffer.tryPush msg).1 = false) :
    LogManager.log msg m = LogManager.flush m := by
  simp only [LogManager.log, h1, Bool.false_eq_true, if_false]
  rw [tryPush_fail_eq h2]

theorem log_init_zero (sinks : List Sink) (e : LogMessage) :
    LogManager.log e (LogManager.init 0 sinks) = LogManager.init 0 sinks := rfl

/-- Claim C1: `log` first attempts a non-blocking enqueue; when the queue is
full it performs one full flush and retries the enqueue exactly once, and if
the retry also fails the event is dropped with no error reported (conjunct
3: both pushes failing leaves exactly the flushed state). Starting from an
empty queue of capacity `C ≥ 1`, logging `C + 1` events from a single
thread triggers exactly one internal flush and leaves the queue holding
exactly the one retried event (the last one). -/
theorem C1_log_flush_retry_once_then_drop (C : Nat) (hC : 1 ≤ C)
    (msgs : List LogMessage) (hlen : msgs.length = C + 1) (sinks : List Sink) :
    LogManager.flushesDuring msgs (LogManager.init C sinks) = 1 ∧
    RingBuffer.contents (LogManager.logN msgs (LogManager.init C sinks)).buffer
      = msgs.drop C ∧
    (∀ (m : LogManagerState) (msg : LogMessage),
      (m.buffer.tryPush msg).1 = false →
      ((LogManager.flush m).buffer.tryPush msg).1 = false →
      LogManager.log msg m = LogManager.flush m) := by
  have hlenT : (msgs.take C).length = C := by
    rw [List.length_take, hlen]
    omega
  have hlenD : (msgs.drop C).length = 1 := by
    rw [List.length_drop, hlen]
    omega
  obtain ⟨e, he⟩ := List.length_eq_one.mp hlenD
  have hsplit : msgs.take C ++ [e] = msgs := by
    rw [← he]
    exact List.take_append_drop C msgs
  have h0 : (LogManager.init C sinks).buffer.Models [] :=
    RingBuffer.new_models LogMessage C
  have hcap0 : (LogManager.init C sinks).buffer.maxCapacity = C := rfl
  obtain ⟨s1, p1, b1, fl1⟩ := LogManager.logN_no_flush (msgs.take C) h0
    (by rw [hcap0]; simp [hlenT])
  have hb1 : (LogManager.logN (msgs.take C) (LogManager.init C sinks)).buffer.Models
      (msgs.take C) := by
    simpa using b1
  have hcap1 : (LogManager.logN (msgs.take C) (LogManager.init C sinks)).buffer.maxCapacity
      = C := by
    rw [LogManager.logN_maxCapacity]
    rfl
  have hfull : (msgs.take C).length
      = (LogManager.logN (msgs.take C) (LogManager.init C sinks)).buffer.maxCapacity := by
    rw [hlenT, hcap1]
  have hs1 : (LogManager.logN (msgs.take C) (LogManager.init C sinks)).pool.shutdown
      = false := by
    rw [p1]
    rfl
  obtain ⟨o1, o2, o3, o4⟩ := LogManager.log_overflow e hb1 hfull
    (by rw [hcap1]; omega) hs1
  refine ⟨?_, ?_, ?_⟩
  · have e1 : LogManager.flushesDuring msgs (LogManager.init C sinks)
        = LogManager.flushesDuring (msgs.take C ++ [e]) (LogManager.init C sinks) := by
      rw [hsplit]
    rw [e1, LogManager.flushesDuring_append, fl1]
    have hfail : (LogManager.logN (msgs.take C) (LogManager.init C sinks)).buffer.tryPush e
        = (false, (LogManager.logN (msgs.take C) (LogManager.init C sinks)).buffer) :=
      LogManager.tryPush_full e hb1 hfull
    simp [LogManager.flushesDuring, hfail]
  · have e2 : LogManager.logN msgs (LogManager.init C sinks)
        = LogManager.logN (msgs.take C ++ [e]) (LogManager.init C sinks) := by
      rw [hsplit]
    rw [e2, LogManager.logN_append]
    have e3 : LogManager.logN [e] (LogManager.logN (msgs.take C) (LogManager.init C sinks))
        = LogManager.log e (LogManager.logN (msgs.take C) (LogManager.init C sinks)) := rfl
    rw [e3, RingBuffer.contents_eq_of_models o2, he]
  · intro m msg h1 h2
    exact log_drop m msg h1 h2

/-- Concrete witness for C1: capacity 1, two events, one sink; and a
concrete both-pushes-fail drop instance at capacity 0. -/
theorem C1_witness :
    (1 ≤ 1 ∧ ([msgA, msgB] : List LogMessage).length = 1 + 1) ∧
    LogManager.flushesDuring [msgA, msgB] (LogManager.init 1 ["console"]) = 1 ∧
    RingBuffer.contents
        (LogManager.logN [msgA, msgB] (LogManager.init 1 ["console"])).buffer
      = ([msgA, msgB] : List LogMessage).drop 1 ∧
    LogManager.log msgA (LogManager.init 0 ["console"])
      = LogManager.flush (LogManager.init 0 ["console"]) :=
  ⟨⟨by decide, by decide⟩,
    (C1_log_flush_retry_once_then_drop 1 (by decide) [msgA, msgB] (by decide) ["console"]).1,
    (C1_log_flush_retry_once_then_drop 1 (by decide) [msgA, msgB] (by decide) ["console"]).2.1,
    (C1_log_flush_retry_once_then_drop 1 (by decide) [msgA, msgB] (by decide) ["console"]).2.2
      (LogManager.init 0 ["console"]) msgA (by decide) (by decide)⟩

/-- Claim C2: starting from a fresh bounded queue of capacity `C`, any
single-thread sequence of `tryPush` calls of length at most `C` all
succeed, and the subsequent `tryPop` calls return exactly the pushed events
in push order (FIFO). -/
theorem C2_fifo_order (C : Nat) (es : List LogMessage) (hle : es.length ≤ C) :
    (RingBuffer.pushAll es (RingBuffer.new LogMessage C)).1 = true ∧
    (RingBuffer.popAll es.length
        (RingBuffer.pushAll es (RingBuffer.new LogMessage C)).2).1 = es := by
  obtain ⟨h1, h2⟩ := RingBuffer.pushAll_models es (RingBuffer.new_models LogMessage C)
    (by simpa using hle)
  exact ⟨h1, (RingBuffer.popAll_models es (by simpa using h2)).1⟩

/-- Concrete witness for C2: two events through a capacity-2 queue. -/
theorem C2_witness :
    ([msgA, msgB] : List LogMessage).length ≤ 2 ∧
    ((RingBuffer.pushAll [msgA, msgB] (RingBuffer.new LogMessage 2)).1 = true ∧
     (RingBuffer.popAll ([msgA, msgB] : List LogMessage).length
        (RingBuffer.pushAll [msgA, msgB] (RingBuffer.new LogMessage 2)).2).1
       = [msgA, msgB]) :=
  ⟨by decide, C2_fifo_order 2 [msgA, msgB] (by decide)⟩

/-- Claim C3: with no concurrent producers (the embedding is sequential),
after `flush()` the queue is empty, and the tasks submitted to the worker
pool during the flush are exactly one write task per (drained event,
registered sink) pair — each task holding its own copy of the event — with
the per-event submissions in sink registration order (`fanOut`). -/
theorem C3_flush_empties_and_fans_out (m : LogManagerState) (l : List LogMessage)
    (h : m.buffer.Models l) (hs : m.pool.shutdown = false) :
    RingBuffer.contents (LogManager.flush m).buffer = [] ∧
    (LogManager.flush m).pool.tasks = m.pool.tasks ++ LogManager.fanOut m.sinks l ∧
    (LogManager.flush m).sinks = m.sinks := by
  obtain ⟨f1, f2, f3, f4⟩ := LogManager.flush_spec h hs
  exact ⟨RingBuffer.contents_eq_of_models f2, f4, f1⟩

/-- Concrete witness for C3: two queued events fanned out to two sinks. -/
theorem C3_witness :
    sampleManager.buffer.Models [msgA, msgB] ∧
    sampleManager.pool.shutdown = false ∧
    (RingBuffer.contents (LogManager.flush sampleManager).buffer = [] ∧
     (LogManager.flush sampleManager).pool.tasks =
       sampleManager.pool.tasks ++ LogManager.fanOut sampleManager.sinks [msgA, msgB] ∧
     (LogManager.flush sampleManager).sinks = sampleManager.sinks) :=
  ⟨by decide, rfl,
    C3_flush_empties_and_fans_out sampleManager [msgA, msgB] (by decide) rfl⟩

/-- Claim C4: `tryPush` on a full queue returns `false` and leaves the
entire queue state (contents, head, tail, count) unchanged; `tryPop` on an
empty queue returns empty and leaves the state unchanged. -/
theorem C4_full_push_empty_pop_noop {T : Type} (b : RingBuffer T) (v : T) :
    (b.isFull_unlocked = true → b.tryPush v = (false, b)) ∧
    (b.isEmpty_unlocked = true → b.tryPop = (none, b)) := by
  constructor
  · intro h
    simp [RingBuffer.tryPush, h]
  · intro h
    simp [RingBuffer.tryPop, h]

/-- Concrete witness for C4: a full capacity-1 buffer and a fresh empty
buffer. -/
theorem C4_witness :
    (sampleFullBuffer.isFull_unlocked = true ∧
     sampleFullBuffer.tryPush msgB = (false, sampleFullBuffer)) ∧
    ((RingBuffer.new LogMessage 1).isEmpty_unlocked = true ∧
     (RingBuffer.new LogMessage 1).tryPop = (none, RingBuffer.new LogMessage 1)) :=
  ⟨⟨by decide, (C4_full_push_empty_pop_noop sampleFullBuffer msgB).1 (by decide)⟩,
   ⟨by decide, (C4_full_push_empty_pop_noop (RingBuffer.new LogMessage 1) msgA).2 (by decide)⟩⟩

/-- Claim C5: every queue operation (`tryPush`, `tryPop`, and the blocking
`push`/`pop` under their wait conditions) preserves the structural
invariant `0 ≤ count ≤ capacity` with `head`/`tail` reduced modulo
capacity, and `count == 0` holds exactly when the queue reports empty,
`count == capacity` exactly when it reports full. -/
theorem C5_operations_preserve_invariant {T : Type} (b : RingBuffer T) (v : T)
    (hInv : b.Inv) :
    (b.tryPush v).2.Inv ∧ (b.tryPop).2.Inv ∧
    (b.isFull_unlocked = false → (b.push v).Inv) ∧
    (b.isEmpty_unlocked = false → (b.pop).2.Inv) ∧
    (b.isEmpty_unlocked = true ↔ b.elemCount = 0) ∧
    (b.isFull_unlocked = true ↔ b.elemCount = b.maxCapacity) := by
  obtain ⟨hlen, hle, hh, ht⟩ := hInv
  have hpushInv : b.elemCount < b.maxCapacity → (b.push v).Inv := by
    intro hlt
    exact ⟨by simp [RingBuffer.push, hlen], by simp [RingBuffer.push]; omega,
      Nat.mod_mod_of_dvd _ dvd_rfl, by simpa [RingBuffer.push] using ht⟩
  have hpopInv : (b.pop).2.Inv := by
    exact ⟨by simp [RingBuffer.pop, hlen], by simp [RingBuffer.pop]; omega,
      by simpa [RingBuffer.pop] using hh, Nat.mod_mod_of_dvd _ dvd_rfl⟩
  refine ⟨?_, ?_, ?_, ?_, ?_, ?_⟩
  · by_cases hf : b.isFull_unlocked = true
    · simpa [RingBuffer.tryPush, hf] using (⟨hlen, hle, hh, ht⟩ : b.Inv)
    · have hf' : b.isFull_unlocked = false := by
        revert hf
        cases b.isFull_unlocked <;> simp
      have hlt : b.elemCount < b.maxCapacity := by
        have := hf'
        simp only [RingBuffer.isFull_unlocked, beq_eq_false_iff_ne] at this
        omega
      simp only [RingBuffer.tryPush, hf', Bool.false_eq_true, if_false]
      exact hpushInv hlt
  · by_cases hemp : b.isEmpty_unlocked = true
    · simpa [RingBuffer.tryPop, hemp] using (⟨hlen, hle, hh, ht⟩ : b.Inv)
    · have hemp' : b.isEmpty_unlocked = false := by
        revert hemp
        cases b.isEmpty_unlocked <;> simp
      simp only [RingBuffer.tryPop, hemp', Bool.false_eq_true, if_false]
      exact hpopInv
  · intro hf
    have hlt : b.elemCount < b.maxCapacity := by
      have := hf
      simp only [RingBuffer.isFull_unlocked, beq_eq_false_iff_ne] at this
      omega
    exact hpushInv hlt
  · intro _
    exact hpopInv
  · simp [RingBuffer.isEmpty_unlocked]
  · simp [RingBuffer.isFull_unlocked]

/-- Concrete witness for C5: a capacity-2 buffer holding one event. -/
theorem C5_witness :
    sampleBuffer.Inv ∧
    ((sampleBuffer.tryPush msgB).2.Inv ∧ (sampleBuffer.tryPop).2.Inv ∧
     (sampleBuffer.isFull_unlocked = false → (sampleBuffer.push msgB).Inv) ∧
     (sampleBuffer.isEmpty_unlocked = false → (sampleBuffer.pop).2.Inv) ∧
     (sampleBuffer.isEmpty_unlocked = true ↔ sampleBuffer.elemCount = 0) ∧
     (sampleBuffer.isFull_unlocked = true ↔
       sampleBuffer.elemCount = sampleBuffer.maxCapacity)) :=
  ⟨by decide, C5_operations_preserve_invariant sampleBuffer msgB (by decide)⟩

/-- Claim C6 counterexample: `workerLoop` executes `task();` with no
`try`/`catch`, so at the concrete state whose front task body raises a
failure, the worker iteration's outcome is that failure — not the normal
outcome the claim asserts. -/
theorem C6_counterexample :
    workerStep { tasks := [Except.error "sink write failed"], shutdown := false } =
      WorkerStepResult.ran (Except.error "sink write failed")
        { tasks := [], shutdown := false } ∧
    workerStep { tasks := [Except.error "sink write failed"], shutdown := false } ≠
      WorkerStepResult.ran (Except.ok ()) { tasks := [], shutdown := false } :=
  ⟨rfl, by decide⟩

/-- Claim C6 (amended): a worker removes the front task and executes it
with no failure handling — the iteration's outcome is exactly the task
body's outcome, so a failure raised by a sink write propagates out of the
worker loop instead of being ignored; the remaining queued tasks are
untouched, and a worker iteration terminates the worker only when shutdown
has been requested and the queue is empty. -/
theorem C6_worker_propagates_task_failure (err : String) (rest : List TaskOutcome)
    (sd : Bool) :
    workerStep { tasks := Except.error err :: rest, shutdown := sd } =
      WorkerStepResult.ran (Except.error err) { tasks := rest, shutdown := sd } ∧
    (∀ p : WorkerQueueState,
      workerStep p = WorkerStepResult.exited ↔ p.tasks = [] ∧ p.shutdown = true) := by
  constructor
  · rfl
  · intro p
    cases hp : p.tasks with
    | nil => cases hsd : p.shutdown <;> simp [workerStep, hp, hsd]
    | cons t rest2 => simp [workerStep, hp]

/-- Claim C7: `ThreadPool::enqueue` returns `false` and drops the task
exactly when shutdown has begun; otherwise it appends the task to the task
queue and returns `true`. In neither case is there any failure path to the
submitter (the embedding is a total function into `Bool × state`). -/
theorem C7_submit_shutdown_boolean (p : ThreadPoolState) (t : WriteTask) :
    ((ThreadPool.enqueue t p).1 = false ↔ p.shutdown = true) ∧
    (p.shutdown = true → (ThreadPool.enqueue t p).2 = p) ∧
    (p.shutdown = false →
      (ThreadPool.enqueue t p).1 = true ∧
      (ThreadPool.enqueue t p).2 = { p with tasks := p.tasks ++ [t] }) := by
  cases hp : p.shutdown <;> simp [ThreadPool.enqueue, hp]

/-- Concrete witness for C7: one submission to a shut-down pool and one to
a live pool. -/
theorem C7_witness :
    (ThreadPool.enqueue ("console", msgA) { tasks := [], shutdown := true }).2 =
      { tasks := [], shutdown := true } ∧
    (ThreadPool.enqueue ("console", msgA) { tasks := [], shutdown := false }).1 = true :=
  ⟨(C7_submit_shutdown_boolean { tasks := [], shutdown := true } ("console", msgA)).2.1 rfl,
   ((C7_submit_shutdown_boolean { tasks := [], shutdown := false } ("console", msgA)).2.2
      rfl).1⟩

/-- Claim C8 counterexample: constructing a `RingBuffer` with capacity 0
does not fail — the constructor `RingBuffer(std::size_t capacity)` has no
validation and no failure path — and yields a well-defined degenerate queue
satisfying the structural invariant, on which the operations are defined;
`LogManager`'s constructor likewise accepts `bufferCapacity = 0`.
(Validation of `bufferCapacity > 0` exists only in the separate
`LogManagerBuilder::withBufferSize`, not in the queue or manager
constructors the claim is about.) -/
theorem C8_counterexample :
    (RingBuffer.new LogMessage 0).Inv ∧
    (RingBuffer.new LogMessage 0).tryPush msgA = (false, RingBuffer.new LogMessage 0) ∧
    (RingBuffer.new LogMessage 0).tryPop = (none, RingBuffer.new LogMessage 0) ∧
    (LogManager.init 0 ["console"]).buffer = RingBuffer.new LogMessage 0 :=
  ⟨by decide, by decide, by decide, rfl⟩

/-- Claim C8 (amended): constructing a bounded queue with capacity 0
succeeds without any error; it yields the degenerate queue that is
simultaneously empty and full, on which every `tryPush` fails and every
`tryPop` returns empty, and `LogManager` can be constructed over it. -/
theorem C8_zero_capacity_constructs (v : LogMessage) :
    (RingBuffer.new LogMessage 0).tryPush v = (false, RingBuffer.new LogMessage 0) ∧
    (RingBuffer.new LogMessage 0).tryPop = (none, RingBuffer.new LogMessage 0) ∧
    (LogManager.init 0 []).buffer = RingBuffer.new LogMessage 0 :=
  ⟨rfl, by decide, rfl⟩

/-- Claim C9 counterexample: at a concrete event the file sink persists a
line with four bracketed fields in the order name, timestamp, context,
severity — not the three fields `[source] [severity] [timestamp]` the claim
asserts. -/
theorem C9_counterexample :
    LogMessage.format msgA
      = "[engine] [2024-01-01 10:00:00] [ENGINE_TEMP] [INFO] temp normal" ∧
    LogMessage.format msgA
      ≠ specLineFormat "engine" "INFO" "2024-01-01 10:00:00" "temp normal" ∧
    (FileSinkImpl.write msgA { fileIsOpen := true, lines := [] }).lines
      = ["[engine] [2024-01-01 10:00:00] [ENGINE_TEMP] [INFO] temp normal"] :=
  ⟨by decide, by decide, by decide⟩

/-- Claim C9 (amended): every event written by the file sink to an open
file appends exactly one formatted line, of the format
`[name] [timestamp] [context] [severity] payload` — four bracketed fields
in the order name, timestamp, context, severity, followed by the payload. -/
theorem C9_file_sink_line_format (fs : FileSinkState) (msg : LogMessage)
    (hopen : fs.fileIsOpen = true) :
    FileSinkImpl.write msg fs =
      { fs with lines := fs.lines ++
          ["[" ++ msg.name ++ "] [" ++ msg.timeStamp ++ "] [" ++ msg.context
            ++ "] [" ++ msg.severity ++ "] " ++ msg.payload] } := by
  have hfmt : msg.format =
      "[" ++ msg.name ++ "] [" ++ msg.timeStamp ++ "] [" ++ msg.context
        ++ "] [" ++ msg.severity ++ "] " ++ msg.payload := by
    simp only [LogMessage.format]
    simp only [show ("] [" : String) = "] " ++ "[" from rfl]
    simp [String.append_assoc]
  simp [FileSinkImpl.write, hopen, hfmt]

/-- Concrete witness for C9 (amended): one write to an open, empty file. -/
theorem C9_witness :
    ({ fileIsOpen := true, lines := [] } : FileSinkState).fileIsOpen = true ∧
    FileSinkImpl.write msgB { fileIsOpen := true, lines := [] } =
      { fileIsOpen := true,
        lines := ["[fuel] [2024-01-01 10:00:01] [FUEL_LEVEL] [WARNING] level low"] } := by
  refine ⟨rfl, ?_⟩
  rw [C9_file_sink_line_format { fileIsOpen := true, lines := [] } msgB rfl]
  decide

/-- Claim C10: a bounded queue constructed with capacity 0 is a valid
object on which every `tryPush` returns `false` (the queue always reports
full, `0 == 0`) and every `tryPop` returns empty; consequently a
`LogManager` over a capacity-0 buffer silently drops every logged event —
logging any sequence leaves the manager state completely unchanged (no
buffered events, no submitted tasks, no error). -/
theorem C10_zero_capacity_silently_drops (msgs : List LogMessage)
    (sinks : List Sink) (v : LogMessage) :
    ((RingBuffer.new LogMessage 0).tryPush v).1 = false ∧
    ((RingBuffer.new LogMessage 0).tryPop).1 = none ∧
    LogManager.logN msgs (LogManager.init 0 sinks) = LogManager.init 0 sinks := by
  refine ⟨rfl, rfl, ?_⟩
  induction msgs with
  | nil => rfl
  | cons e rest ih =>
    simp only [LogManager.logN]
    rw [log_init_zero]
    exact ih
